import Mathlib

/-!
# Verification of the matrix root-inverse core of `distributed_shampoo`

This file embeds `distributed_shampoo/matrix_functions.py` in Lean and proves
properties of the embedding.  Matrices are `Matrix (Fin n) (Fin n) ℚ`; torch
tensors of arbitrary rank are modelled as a shape together with row-major data.

The three numerical primitives the Python code delegates to its linear-algebra
backend (the symmetric eigensolver `torch.linalg.eigh`, the real scalar power
`x ** alpha`, and the scalar square root underlying the Frobenius norm) are
taken as oracle parameters: the repository's own code never computes them, it
only routes values into and out of them, and the properties proved here hold
for every choice of these oracles.  Python exceptions are modelled by
`Except`: `ValueError`/`NotImplementedError` raised by the source become
`MFError` values, and the Python `ZeroDivisionError` that `-1 / root` raises
at `root = 0` becomes `MFError.zeroDivision`.
-/

/-- A torch tensor over exact rationals: a shape and row-major flat data.
Only the shapes the source inspects matter (rank, squareness, one-element). -/
structure PyTensor where
  shape : List ℕ
  data : List ℚ
  deriving DecidableEq

/-- Exceptions raised by `matrix_functions.py`.  The spec groups
`notTwoDim`, `notSquare` and `shapeMismatch` under the name `ShapeError`,
`invalidRoot` under `InvalidRootError` and `unsupportedMethod` under
`UnsupportedMethodError`.  `zeroDivision` models Python's
`ZeroDivisionError` (raised by `-1 / root` when `root = 0`). -/
inductive MFError where
  | invalidRoot
  | notTwoDim
  | notSquare
  | shapeMismatch
  | zeroDivision
  | unsupportedMethod (msg : String)
  deriving DecidableEq

/-- The spec's `ShapeError` covers the three shape-validation exceptions. -/
def MFError.isShapeError : MFError → Bool
  | .notTwoDim => true
  | .notSquare => true
  | .shapeMismatch => true
  | _ => false

/-- Source enum `NewtonConvergenceFlag`. -/
inductive NewtonConvergenceFlag where
  | REACHED_MAX_ITERS
  | CONVERGED
  deriving DecidableEq

/-- Source enum `RootInvMethod`, extended with `other` to model the fact that
the Python dispatcher can receive any value as the selector (the source's
`else` branch and the spec's "a third enum value"). -/
inductive RootInvMethodLike where
  | EIGEN
  | NEWTON
  | other (s : String)
  deriving DecidableEq

/-- Interpret the flat data of a tensor whose shape is `[n, n]` as a square
matrix (row-major, as torch stores it). -/
def PyTensor.toMatrix (A : PyTensor) (n : ℕ) : Matrix (Fin n) (Fin n) ℚ :=
  Matrix.of fun i j => A.data.getD (i.val * n + j.val) 0

/-- Elementwise map over a tensor (torch broadcast of a scalar function). -/
def PyTensor.map (f : ℚ → ℚ) (A : PyTensor) : PyTensor :=
  ⟨A.shape, A.data.map f⟩

/-- Row-major index is in range. -/
theorem rowMajor_lt {n i j : ℕ} (hi : i < n) (hj : j < n) : i * n + j < n * n :=
  calc i * n + j < i * n + n := Nat.add_lt_add_left hj _
    _ = (i + 1) * n := by ring
    _ ≤ n * n := Nat.mul_le_mul_right n (Nat.succ_le_of_lt hi)

/-- A square-of-a-dimension index forces the dimension to be positive. -/
theorem pos_of_fin_sq {n : ℕ} (k : Fin (n * n)) : 0 < n := by
  rcases Nat.eq_zero_or_pos n with h | h
  · exact absurd k.isLt (by simp [h])
  · exact h

/-- Flatten a square matrix back into a shape-`[n, n]` tensor (row-major). -/
def matToTensor (n : ℕ) (M : Matrix (Fin n) (Fin n) ℚ) : PyTensor :=
  ⟨[n, n], List.ofFn fun k : Fin (n * n) =>
    M ⟨k.val / n, Nat.div_lt_of_lt_mul k.isLt⟩
      ⟨k.val % n, Nat.mod_lt _ (pos_of_fin_sq k)⟩⟩

/-- Minimum of a list of rationals (`torch.min`); `0` on the empty list, which
the source never reaches with a well-formed input. -/
def listMin : List ℚ → ℚ
  | [] => 0
  | x :: xs => xs.foldr min x

/-- Minimum entry of an eigenvalue vector (`torch.min(L)`). -/
def vecMin {n : ℕ} (L : Fin n → ℚ) : ℚ := listMin (List.ofFn L)

/-- Broadcast product `Q * v.unsqueeze(0)`: column `j` of `Q` scaled by `v j`. -/
def hadamardRow {n : ℕ} (Q : Matrix (Fin n) (Fin n) ℚ) (v : Fin n → ℚ) :
    Matrix (Fin n) (Fin n) ℚ :=
  Matrix.of fun i j => Q i j * v j

/-- Absolute values of all entries, row-major (`torch` flattens for `p=inf`). -/
def entriesAbs {n : ℕ} (M : Matrix (Fin n) (Fin n) ℚ) : List ℚ :=
  (List.ofFn fun i => List.ofFn fun j => |M i j|).flatten

/-- Max-absolute-entry norm: `torch.norm(M, p=torch.inf)` on a matrix. -/
def linfNorm {n : ℕ} (M : Matrix (Fin n) (Fin n) ℚ) : ℚ := (entriesAbs M).foldr max 0

/-- Max-absolute-entry distance: `torch.dist(A, B, p=torch.inf)`. -/
def linfDist {n : ℕ} (A B : Matrix (Fin n) (Fin n) ℚ) : ℚ := linfNorm (A - B)

/-- Sum of squared entries; `torch.linalg.norm(A)` is its square root. -/
def sumSq {n : ℕ} (M : Matrix (Fin n) (Fin n) ℚ) : ℚ :=
  ((List.ofFn fun i => List.ofFn fun j => (M i j) ^ 2).flatten).foldr (· + ·) 0

/-- Explicit inverse `det⁻¹ • adjugate`, the value `torch.linalg.matrix_power`
produces for a negative exponent on an invertible matrix. -/
def matInv {n : ℕ} (M : Matrix (Fin n) (Fin n) ℚ) : Matrix (Fin n) (Fin n) ℚ :=
  (M.det)⁻¹ • M.adjugate

/-- `torch.linalg.matrix_power(M, k)` for an integer exponent. -/
def matPowZ {n : ℕ} (M : Matrix (Fin n) (Fin n) ℚ) (k : ℤ) : Matrix (Fin n) (Fin n) ℚ :=
  if 0 ≤ k then M ^ k.toNat else matInv M ^ (-k).toNat

/-- The symmetric eigendecomposition primitive `torch.linalg.eigh`, an
external collaborator of the repository, taken as an oracle. -/
def EighOracle : Type :=
  (n : ℕ) → Matrix (Fin n) (Fin n) ℚ → (Fin n → ℚ) × Matrix (Fin n) (Fin n) ℚ

/-- Result of `_matrix_root_eigen`: either the degenerate early return
`(A ** alpha, A, torch.tensor(1.0))` for a scalar-like input, or the
eigendecomposition-based result `(X, L, Q)` for a square matrix. -/
inductive EigenOut where
  | degenerate (X L Q : PyTensor)
  | decomposed (n : ℕ) (X : Matrix (Fin n) (Fin n) ℚ) (L : Fin n → ℚ)
      (Q : Matrix (Fin n) (Fin n) ℚ)

/-- Embedding of `_matrix_root_eigen`.  The second component of a successful
result is the buffer the caller's `A` holds after the call: the source applies
no in-place operation to `A` on this path (`L += ...` mutates the fresh
eigenvalue tensor returned by `eigh`, not `A`), so it is `A` in every branch. -/
def matrix_root_eigen (rpow : ℚ → ℚ → ℚ) (eigh : EighOracle) (A : PyTensor)
    (root : ℤ) (epsilon : ℚ) (inverse : Bool) (make_positive_semidefinite : Bool) :
    Except MFError (EigenOut × PyTensor) :=
  if root ≤ 0 then .error .invalidRoot
  else
    let alpha0 : ℚ := 1 / (root : ℚ)
    let alpha : ℚ := if inverse then -alpha0 else alpha0
    if A.shape.length = 0 ∨ (A.shape.length = 1 ∧ A.shape.headD 0 = 1) then
      .ok (.degenerate (A.map fun v => rpow v alpha) A ⟨[], [1]⟩, A)
    else if A.shape.length ≠ 2 then .error .notTwoDim
    else if A.shape.headD 0 ≠ A.shape.getD 1 0 then .error .notSquare
    else
      let n := A.shape.headD 0
      let LQ := eigh n (A.toMatrix n)
      let lambda_min := vecMin LQ.1
      let L1 : Fin n → ℚ :=
        if make_positive_semidefinite then fun i => LQ.1 i + -(min lambda_min 0) else LQ.1
      let L2 : Fin n → ℚ := fun i => L1 i + epsilon
      let X := hadamardRow LQ.2 (fun j => rpow (L2 j) alpha) * Matrix.transpose LQ.2
      .ok (.decomposed n X L2 LQ.2, A)

/-- Loop state of the coupled Newton iteration: the local variables
`X`, `M`, `iteration`, `error` of `_matrix_inverse_root_newton`. -/
structure NewtonState (n : ℕ) where
  X : Matrix (Fin n) (Fin n) ℚ
  M : Matrix (Fin n) (Fin n) ℚ
  iteration : ℕ
  error : ℚ

/-- One body execution of the `while` loop of `_matrix_inverse_root_newton`:
`M_p = M.mul(alpha).add_(identity, alpha=(1 - alpha))`, `X = X @ M_p`,
`M = torch.linalg.matrix_power(M_p, root) @ M`, then the error update. -/
def newtonStep {n : ℕ} (alpha : ℚ) (root : ℤ) (s : NewtonState n) : NewtonState n :=
  let M_p := alpha • s.M + (1 - alpha) • (1 : Matrix (Fin n) (Fin n) ℚ)
  let X := s.X * M_p
  let M := matPowZ M_p root * s.M
  ⟨X, M, s.iteration + 1, linfDist M 1⟩

/-- The guarded `while error > tolerance and iteration < max_iterations` loop,
driven by explicit fuel (the caller passes `max_iterations` as fuel, which the
`iteration < max_iterations` guard makes exact, not just an upper bound). -/
def loopNewton {n : ℕ} (step : NewtonState n → NewtonState n) (tolerance : ℚ)
    (max_iterations : ℕ) : ℕ → NewtonState n → NewtonState n
  | 0, s => s
  | Nat.succ fuel, s =>
      if tolerance < s.error ∧ s.iteration < max_iterations then
        loopNewton step tolerance max_iterations fuel (step s)
      else s

/-- Return value of `_matrix_inverse_root_newton`, plus `Afinal`: the buffer
the caller's `A` holds after the call.  The source's only in-place write to
`A` is `A.add_(identity, alpha=epsilon)`, so `Afinal` is the regularized
matrix `A + epsilon • 1`. -/
structure NewtonResult (n : ℕ) where
  X : Matrix (Fin n) (Fin n) ℚ
  M : Matrix (Fin n) (Fin n) ℚ
  flag : NewtonConvergenceFlag
  iteration : ℕ
  error : ℚ
  Afinal : Matrix (Fin n) (Fin n) ℚ

/-- Initial loop state of `_matrix_inverse_root_newton`:
`z = (root + 1) / (2 * torch.linalg.norm(A))` on the regularized `A`,
`X = z ** (-alpha) * identity`, `M = z * A`,
`error = torch.dist(M, identity, p=torch.inf)`. -/
def newtonInit (sqrt : ℚ → ℚ) (rpow : ℚ → ℚ → ℚ) {n : ℕ}
    (A : Matrix (Fin n) (Fin n) ℚ) (root : ℤ) (epsilon : ℚ) : NewtonState n :=
  let alpha : ℚ := -1 / (root : ℚ)
  let Areg := A + epsilon • (1 : Matrix (Fin n) (Fin n) ℚ)
  let A_nrm := sqrt (sumSq Areg)
  let z := ((root : ℚ) + 1) / (2 * A_nrm)
  ⟨rpow z (-alpha) • (1 : Matrix (Fin n) (Fin n) ℚ), z • Areg, 0,
    linfDist (z • Areg) (1 : Matrix (Fin n) (Fin n) ℚ)⟩

/-- Embedding of `_matrix_inverse_root_newton`.  The function performs no
validation of `root`: at `root = 0` Python raises `ZeroDivisionError` while
computing `alpha = -1 / root` (before the in-place regularization of `A`),
and for any other root the iteration simply runs. -/
def matrix_inverse_root_newton (sqrt : ℚ → ℚ) (rpow : ℚ → ℚ → ℚ) {n : ℕ}
    (A : Matrix (Fin n) (Fin n) ℚ) (root : ℤ) (epsilon : ℚ)
    (max_iterations : ℕ) (tolerance : ℚ) : Except MFError (NewtonResult n) :=
  if root = 0 then .error .zeroDivision
  else
    let alpha : ℚ := -1 / (root : ℚ)
    let fin := loopNewton (newtonStep alpha root) tolerance max_iterations max_iterations
      (newtonInit sqrt rpow A root epsilon)
    .ok ⟨fin.X, fin.M,
      if fin.error ≤ tolerance then .CONVERGED else .REACHED_MAX_ITERS,
      fin.iteration, fin.error, A + epsilon • (1 : Matrix (Fin n) (Fin n) ℚ)⟩

/-- Warning the dispatcher logs when Newton does not converge. -/
def newtonWarningMsg : String :=
  "Newton did not converge and reached maximum number of iterations!"

/-- The tensor the dispatcher forwards out of an `_matrix_root_eigen` result. -/
def eigenOutX : EigenOut → PyTensor
  | .degenerate X _ _ => X
  | .decomposed n X _ _ => matToTensor n X

/-- Embedding of the dispatcher `matrix_inverse_root`.  A successful result
carries the returned tensor `X` and the list of warnings logged during the
call (the soft non-convergence diagnostic); hard failures are `Except.error`.
The `EIGEN` branch calls `_matrix_root_eigen` with its defaults
`inverse=True`, `make_positive_semidefinite=True` and discards `L`, `Q`. -/
def matrix_inverse_root (rpow : ℚ → ℚ → ℚ) (sqrt : ℚ → ℚ) (eigh : EighOracle)
    (A : PyTensor) (root : ℤ) (epsilon : ℚ) (root_inv_method : RootInvMethodLike)
    (max_iterations : ℕ) (tolerance : ℚ) : Except MFError (PyTensor × List String) :=
  match root_inv_method with
  | .EIGEN =>
      (matrix_root_eigen rpow eigh A root epsilon true true).map fun r =>
        (eigenOutX r.1, [])
  | .NEWTON =>
      let n := A.shape.headD 0
      (matrix_inverse_root_newton sqrt rpow (A.toMatrix n) root epsilon
          max_iterations tolerance).map fun r =>
        (matToTensor n r.X,
          if r.flag = NewtonConvergenceFlag.REACHED_MAX_ITERS then [newtonWarningMsg] else [])
  | .other s =>
      .error (.unsupportedMethod
        ("Root inverse method is not implemented! Specified root inverse method is "
          ++ s ++ "."))

/-- Embedding of `compute_matrix_root_inverse_residuals`.  `dbl` is the
elementwise float-to-double cast `Tensor.double()`, an oracle (precision is
not representable over exact rationals; what is verified is where the source
applies the cast).  The reference root inverse is recomputed through the
dispatcher on the cast input with the dispatcher's default method `EIGEN`
and default Newton controls `max_iterations=1000`, `tolerance=1e-6`. -/
def compute_matrix_root_inverse_residuals (rpow : ℚ → ℚ → ℚ) (sqrt : ℚ → ℚ)
    (eigh : EighOracle) (dbl : ℚ → ℚ) (A X_hat : PyTensor) (root : ℤ)
    (epsilon : ℚ) : Except MFError (ℚ × ℚ) :=
  if A.shape.length ≠ 2 then .error .notTwoDim
  else if A.shape.headD 0 ≠ A.shape.getD 1 0 then .error .notSquare
  else if A.shape ≠ X_hat.shape then .error .shapeMismatch
  else
    let n := A.shape.headD 0
    let Ad := A.map dbl
    match matrix_inverse_root rpow sqrt eigh Ad root epsilon .EIGEN 1000 (1 / 1000000) with
    | .error e => .error e
    | .ok Xw =>
        let X := Xw.1.toMatrix n
        let relative_error := linfDist X (X_hat.toMatrix n) / linfNorm X
        let X_invr := matPowZ ((X_hat.map dbl).toMatrix n) (-root)
        let relative_residual :=
          linfDist X_invr (Ad.toMatrix n) / linfNorm (Ad.toMatrix n)
        .ok (relative_error, relative_residual)

/-! ### Spec-side definitions

The following definitions transcribe the wording of the specification (and of
the claims under audit), to be compared with the code embeddings above. -/

/-- Spec wording: the exponent is `-1/p` when the inverse is requested and
`1/p` otherwise. -/
def alphaOf (root : ℤ) (inverse : Bool) : ℚ :=
  if inverse then -(1 / (root : ℚ)) else 1 / (root : ℚ)

/-- Spec wording: eigenvalues shifted by subtracting `min(0, min L)` when the
PSD correction is requested, then incremented by `epsilon` (the `epsilon`
addition happening after the PSD shift). -/
def correctedEigs {n : ℕ} (L : Fin n → ℚ) (epsilon : ℚ)
    (make_positive_semidefinite : Bool) : Fin n → ℚ :=
  fun i => (if make_positive_semidefinite then L i - min (vecMin L) 0 else L i) + epsilon

/-- Spec wording of one Newton iteration: `Mp = (1 - alpha) * I + alpha * M`
(a convex-combination update), then `X = X * Mp`, then `M = Mp ^ p * M` with
`Mp ^ p` the integer matrix power by repeated multiplication, then the error
`|M - I|_inf`. -/
def newtonStepSpec {n : ℕ} (alpha : ℚ) (p : ℕ) (s : NewtonState n) : NewtonState n :=
  let Mp := (1 - alpha) • (1 : Matrix (Fin n) (Fin n) ℚ) + alpha • s.M
  let M := Mp ^ p * s.M
  ⟨s.X * Mp, M, s.iteration + 1, linfDist M 1⟩

/-- Spec wording of the whole Newton computation: `alpha = -1/p`, regularize
`A`, `z = (p + 1) / (2 * |A|_F)` on the regularized `A`, start from
`X = z^(1/p) * I`, `M = z * A`, `error = |M - I|_inf`, iterate
`newtonStepSpec`, and flag `CONVERGED` exactly when the final error is within
tolerance. -/
def specNewtonResult (sqrt : ℚ → ℚ) (rpow : ℚ → ℚ → ℚ) {n : ℕ}
    (A : Matrix (Fin n) (Fin n) ℚ) (p : ℕ) (epsilon : ℚ)
    (max_iterations : ℕ) (tolerance : ℚ) : NewtonResult n :=
  let alpha : ℚ := -(1 / (p : ℚ))
  let Areg := A + epsilon • (1 : Matrix (Fin n) (Fin n) ℚ)
  let z := ((p : ℚ) + 1) / (2 * sqrt (sumSq Areg))
  let init : NewtonState n :=
    ⟨rpow z (1 / (p : ℚ)) • (1 : Matrix (Fin n) (Fin n) ℚ), z • Areg, 0,
      linfDist (z • Areg) 1⟩
  let fin := loopNewton (newtonStepSpec alpha p) tolerance max_iterations max_iterations init
  ⟨fin.X, fin.M,
    if fin.error ≤ tolerance then .CONVERGED else .REACHED_MAX_ITERS,
    fin.iteration, fin.error, Areg⟩

/-! ### Concrete instantiations used by witnesses and counterexamples

The oracles are abstract parameters of every theorem below; the demo values
here are only used to exhibit concrete runs.  `eighDemo` returns the diagonal
and the identity, which is the exact eigendecomposition of any diagonal
matrix; `rpowDemo` and `sqrtDemo` are arbitrary instantiations (the claims
under test are oracle-independent). -/

/-- Demo scalar power oracle. -/
def rpowDemo (b e : ℚ) : ℚ := b + 0 * e

/-- Demo scalar square-root oracle. -/
def sqrtDemo (x : ℚ) : ℚ := x

/-- Demo double-cast oracle. -/
def dblDemo (x : ℚ) : ℚ := x

/-- Demo eigendecomposition oracle: diagonal entries and identity basis
(exact for diagonal inputs). -/
def eighDemo : EighOracle := fun _ M => (fun i => M i i, 1)

/-- A 1-by-1 (two-dimensional, one-element) tensor holding `4`. -/
def T11 : PyTensor := ⟨[1, 1], [4]⟩

/-- A one-dimensional one-element tensor holding `4`. -/
def T1 : PyTensor := ⟨[1], [4]⟩

/-- A 2-by-2 diagonal tensor `[[2, 0], [0, 2]]`. -/
def T22 : PyTensor := ⟨[2, 2], [2, 0, 0, 2]⟩

/-- A non-square 2-by-3 tensor. -/
def T23 : PyTensor := ⟨[2, 3], [1, 2, 3, 4, 5, 6]⟩

/-- A 1-by-1 candidate root inverse holding `2`. -/
def X11 : PyTensor := ⟨[1, 1], [2]⟩

/-- Whether an eigen-extractor call returned through the degenerate
(scalar-like) early-return path. -/
def isDegenerateOut : Except MFError (EigenOut × PyTensor) → Bool
  | .ok (.degenerate _ _ _, _) => true
  | _ => false

/-- Whether a computation returned successfully. -/
def exceptIsOk {ε α : Type _} : Except ε α → Bool
  | .ok _ => true
  | .error _ => false

/-- First returned eigenvalue of a decomposed eigen-extractor result
(`0` in all other cases); used to separate concrete results. -/
def outEig0 : Except MFError (EigenOut × PyTensor) → ℚ
  | .ok (.decomposed n _ L _, _) => if h : 0 < n then L ⟨0, h⟩ else 0
  | _ => 0

/-! ### Helper lemmas -/

/-- The broadcast product against a row vector is multiplication by the
diagonal matrix of that vector: `Q * v.unsqueeze(0) = Q @ diag(v)`. -/
theorem hadamardRow_eq_mul_diagonal {n : ℕ} (Q : Matrix (Fin n) (Fin n) ℚ)
    (v : Fin n → ℚ) : hadamardRow Q v = Q * Matrix.diagonal v := by
  ext i j
  rw [Matrix.mul_diagonal]
  rfl

/-- The source's scalar-input test characterizes exactly the shapes `[]`
(zero-dimensional) and `[1]` (one-dimensional with a single element). -/
theorem degenerate_cond_iff (sh : List ℕ) :
    (sh.length = 0 ∨ (sh.length = 1 ∧ sh.headD 0 = 1)) ↔ (sh = [] ∨ sh = [1]) := by
  match sh with
  | [] => simp
  | [a] => simp
  | a :: b :: t => simp

/-- Flattening a matrix to a tensor and reading it back is the identity. -/
theorem toMatrix_matToTensor {n : ℕ} (M : Matrix (Fin n) (Fin n) ℚ) :
    (matToTensor n M).toMatrix n = M := by
  ext i j
  have hn : 0 < n := Fin.pos i
  have hlt : i.val * n + j.val < n * n := rowMajor_lt i.isLt j.isLt
  have hdiv : (i.val * n + j.val) / n = i.val := by
    rw [Nat.add_comm, Nat.add_mul_div_right _ _ hn, Nat.div_eq_of_lt j.isLt, Nat.zero_add]
  have hmod : (i.val * n + j.val) % n = j.val := by
    rw [Nat.add_comm, Nat.add_mul_mod_self_right, Nat.mod_eq_of_lt j.isLt]
  show (List.ofFn fun k : Fin (n * n) =>
      M ⟨k.val / n, Nat.div_lt_of_lt_mul k.isLt⟩
        ⟨k.val % n, Nat.mod_lt _ (pos_of_fin_sq k)⟩).getD (i.val * n + j.val) 0 = M i j
  rw [List.getD_eq_getElem?_getD, List.getElem?_ofFn]
  simp only [List.ofFnNthVal, hlt, dif_pos, Option.getD_some]
  simp only [hdiv, hmod, Fin.eta]

/-- On a degenerate (scalar-like) input with a valid root, the eigen
extractor returns `A ** alpha` elementwise with trivial eigendata, touching
neither `epsilon` nor the PSD correction nor the eigensolver. -/
theorem matrix_root_eigen_degenerate (rpow : ℚ → ℚ → ℚ) (eigh : EighOracle)
    (A : PyTensor) (root : ℤ) (epsilon : ℚ) (inverse make_psd : Bool)
    (hroot : 1 ≤ root) (hdeg : A.shape = [] ∨ A.shape = [1]) :
    matrix_root_eigen rpow eigh A root epsilon inverse make_psd =
      .ok (.degenerate (A.map fun v => rpow v (alphaOf root inverse)) A ⟨[], [1]⟩, A) := by
  unfold matrix_root_eigen
  rw [if_neg (by omega)]
  rw [if_pos ((degenerate_cond_iff A.shape).mpr hdeg)]
  have halpha : (if inverse then -(1 / (root : ℚ)) else 1 / (root : ℚ)) =
      alphaOf root inverse := rfl
  rw [halpha]

/-- On a shape-`[n, n]` input with a valid root, the eigen extractor runs the
eigendecomposition path and returns
`X = Q @ diag(Lc ^ alpha) @ Q.T`, `L = Lc`, `Q`, where `(L, Q)` comes from
the eigensolver and `Lc` is the corrected, regularized eigenvalue vector. -/
theorem matrix_root_eigen_square (rpow : ℚ → ℚ → ℚ) (eigh : EighOracle)
    (A : PyTensor) (n : ℕ) (root : ℤ) (epsilon : ℚ) (inverse make_psd : Bool)
    (hroot : 1 ≤ root) (hsh : A.shape = [n, n]) :
    matrix_root_eigen rpow eigh A root epsilon inverse make_psd =
      .ok (.decomposed n
        ((eigh n (A.toMatrix n)).2 *
          Matrix.diagonal (fun i =>
            rpow (correctedEigs (eigh n (A.toMatrix n)).1 epsilon make_psd i)
              (alphaOf root inverse)) *
          Matrix.transpose (eigh n (A.toMatrix n)).2)
        (correctedEigs (eigh n (A.toMatrix n)).1 epsilon make_psd)
        (eigh n (A.toMatrix n)).2, A) := by
  obtain ⟨sh, d⟩ := A
  have hsh2 : sh = [n, n] := hsh
  subst hsh2
  unfold matrix_root_eigen
  rw [if_neg (by omega)]
  rw [if_neg (by simp)]
  rw [if_neg (by simp)]
  rw [if_neg (by simp)]
  cases make_psd <;> cases inverse <;>
    simp [correctedEigs, alphaOf, hadamardRow_eq_mul_diagonal, sub_eq_add_neg] <;>
    funext i <;> simp [correctedEigs, sub_eq_add_neg]

/-- The guarded loop executes at most `fuel` body iterations. -/
theorem loopNewton_iteration_le {n : ℕ} (step : NewtonState n → NewtonState n)
    (hstep : ∀ s, (step s).iteration = s.iteration + 1) (tol : ℚ) (maxI : ℕ) :
    ∀ (fuel : ℕ) (s : NewtonState n),
      (loopNewton step tol maxI fuel s).iteration ≤ s.iteration + fuel := by
  intro fuel
  induction fuel with
  | zero => intro s; rw [loopNewton]; omega
  | succ f ih =>
      intro s
      rw [loopNewton]
      split_ifs with h
      · calc (loopNewton step tol maxI f (step s)).iteration
            ≤ (step s).iteration + f := ih (step s)
          _ = s.iteration + (f + 1) := by rw [hstep]; omega
      · omega

/-- With fuel equal to the remaining iteration budget, the loop's final error
is within tolerance exactly when some state reachable within the budget has
error within tolerance (the loop stops at the first such state). -/
theorem loopNewton_error_iff {n : ℕ} (step : NewtonState n → NewtonState n)
    (hstep : ∀ s, (step s).iteration = s.iteration + 1) (tol : ℚ) (maxI : ℕ) :
    ∀ (fuel : ℕ) (s : NewtonState n), s.iteration + fuel = maxI →
      ((loopNewton step tol maxI fuel s).error ≤ tol ↔
        ∃ k, k ≤ fuel ∧ (step^[k] s).error ≤ tol) := by
  intro fuel
  induction fuel with
  | zero =>
      intro s hiter
      rw [loopNewton]
      constructor
      · intro he
        exact ⟨0, Nat.le_refl 0, by simpa using he⟩
      · rintro ⟨k, hk, he⟩
        have hk0 : k = 0 := Nat.le_zero.mp hk
        subst hk0
        simpa using he
  | succ f ih =>
      intro s hiter
      rw [loopNewton]
      by_cases he : tol < s.error
      · have hit : s.iteration < maxI := by omega
        rw [if_pos ⟨he, hit⟩]
        have hiter2 : (step s).iteration + f = maxI := by rw [hstep]; omega
        rw [ih (step s) hiter2]
        constructor
        · rintro ⟨k, hk, hke⟩
          exact ⟨k + 1, by omega, by rwa [Function.iterate_succ_apply]⟩
        · rintro ⟨k, hk, hke⟩
          match k with
          | 0 => exact absurd (by simpa using hke) (not_le.mpr he)
          | Nat.succ k2 =>
              exact ⟨k2, by omega, by rwa [Function.iterate_succ_apply] at hke⟩
      · rw [if_neg (by tauto)]
        constructor
        · intro h0
          exact ⟨0, Nat.zero_le _, by simpa using h0⟩
        · intro _
          exact not_lt.mp he

/-- The code's loop body agrees with the spec's description of one iteration
once the root is a positive integer: the convex combination is written in the
other order and the integer matrix power is the natural-number power. -/
theorem newtonStep_eq_spec {n : ℕ} (alpha : ℚ) (p : ℕ) :
    (newtonStep alpha (p : ℤ) : NewtonState n → NewtonState n) = newtonStepSpec alpha p := by
  funext s
  unfold newtonStep newtonStepSpec matPowZ
  simp only [Int.natCast_nonneg, if_true, Int.toNat_natCast, add_comm (alpha • s.M)]

/-- The code's initial state agrees with the spec's description for a
positive integer root: `z ** (-alpha)` is `z ^ (1/p)`. -/
theorem newtonInit_eq_spec (sqrt : ℚ → ℚ) (rpow : ℚ → ℚ → ℚ) {n : ℕ}
    (A : Matrix (Fin n) (Fin n) ℚ) (p : ℕ) (epsilon : ℚ) :
    newtonInit sqrt rpow A (p : ℤ) epsilon =
      (⟨rpow (((p : ℚ) + 1) / (2 * sqrt (sumSq (A + epsilon • 1)))) (1 / (p : ℚ)) •
          (1 : Matrix (Fin n) (Fin n) ℚ),
        (((p : ℚ) + 1) / (2 * sqrt (sumSq (A + epsilon • 1)))) • (A + epsilon • 1), 0,
        linfDist ((((p : ℚ) + 1) / (2 * sqrt (sumSq (A + epsilon • 1)))) • (A + epsilon • 1))
          1⟩ : NewtonState n) := by
  unfold newtonInit
  simp only [Int.cast_natCast, neg_div, neg_neg]

/-- With a valid root, the eigen extractor reports a degenerate result
exactly for the shapes `[]` and `[1]`. -/
theorem isDegenerateOut_iff (rpow : ℚ → ℚ → ℚ) (eigh : EighOracle) (A : PyTensor)
    (root : ℤ) (epsilon : ℚ) (inv psd : Bool) (hroot : 1 ≤ root) :
    isDegenerateOut (matrix_root_eigen rpow eigh A root epsilon inv psd) = true ↔
      (A.shape = [] ∨ A.shape = [1]) := by
  unfold matrix_root_eigen
  rw [if_neg (by omega)]
  by_cases hdeg : A.shape.length = 0 ∨ (A.shape.length = 1 ∧ A.shape.headD 0 = 1)
  · rw [if_pos hdeg]
    simp [isDegenerateOut, (degenerate_cond_iff A.shape).mp hdeg]
  · rw [if_neg hdeg]
    have hnot : ¬(A.shape = [] ∨ A.shape = [1]) :=
      fun h => hdeg ((degenerate_cond_iff A.shape).mpr h)
    split_ifs <;> simp [isDegenerateOut, hnot]

/-- For a nonzero root the Newton iterator always returns successfully, with
the result assembled from the final loop state. -/
theorem matrix_inverse_root_newton_ok (sqrt : ℚ → ℚ) (rpow : ℚ → ℚ → ℚ) {n : ℕ}
    (A : Matrix (Fin n) (Fin n) ℚ) (root : ℤ) (epsilon : ℚ) (maxIter : ℕ)
    (tol : ℚ) (hroot : root ≠ 0) :
    matrix_inverse_root_newton sqrt rpow A root epsilon maxIter tol =
      .ok (let fin := loopNewton (newtonStep (-1 / (root : ℚ)) root) tol maxIter maxIter
            (newtonInit sqrt rpow A root epsilon)
          ⟨fin.X, fin.M,
            if fin.error ≤ tol then .CONVERGED else .REACHED_MAX_ITERS,
            fin.iteration, fin.error, A + epsilon • (1 : Matrix (Fin n) (Fin n) ℚ)⟩) := by
  unfold matrix_inverse_root_newton
  rw [if_neg hroot]

/-! ### Claims -/

/-- C1.  For every symmetric square 2-dimensional matrix `A`, root `p >= 1`,
`epsilon >= 0`, inverse flag and PSD flag, the eigen-based extractor returns
`X = Q * diag(Lc ^ alpha) * Q.T` where `(L, Q)` is the (oracle) symmetric
eigendecomposition of `A`, `Lc` is `L` shifted by `-min(0, min L)` when the
PSD flag is set and then incremented by `epsilon` (the `epsilon` addition
after the PSD shift), and `alpha = -1/p` when inverse is set, `1/p`
otherwise; the returned eigenvalue vector is `Lc`. -/
theorem c1_eigen_reconstruction (rpow : ℚ → ℚ → ℚ) (eigh : EighOracle)
    (A : PyTensor) (n : ℕ) (root : ℤ) (epsilon : ℚ) (inverse make_psd : Bool)
    (hsym : Matrix.transpose (A.toMatrix n) = A.toMatrix n)
    (hsh : A.shape = [n, n]) (hroot : 1 ≤ root) (heps : 0 ≤ epsilon) :
    matrix_root_eigen rpow eigh A root epsilon inverse make_psd =
      .ok (.decomposed n
        ((eigh n (A.toMatrix n)).2 *
          Matrix.diagonal (fun i =>
            rpow (correctedEigs (eigh n (A.toMatrix n)).1 epsilon make_psd i)
              (alphaOf root inverse)) *
          Matrix.transpose (eigh n (A.toMatrix n)).2)
        (correctedEigs (eigh n (A.toMatrix n)).1 epsilon make_psd)
        (eigh n (A.toMatrix n)).2, A) :=
  matrix_root_eigen_square rpow eigh A n root epsilon inverse make_psd hroot hsh

/-- Witness for C1 at the concrete symmetric input `[[2, 0], [0, 2]]`,
root `2`, `epsilon = 0`, inverse and PSD flags set. -/
theorem c1_eigen_reconstruction_witness :
    (Matrix.transpose (T22.toMatrix 2) = T22.toMatrix 2 ∧ T22.shape = [2, 2] ∧
      (1 : ℤ) ≤ 2 ∧ (0 : ℚ) ≤ 0) ∧
    matrix_root_eigen rpowDemo eighDemo T22 2 0 true true =
      .ok (.decomposed 2
        ((eighDemo 2 (T22.toMatrix 2)).2 *
          Matrix.diagonal (fun i =>
            rpowDemo (correctedEigs (eighDemo 2 (T22.toMatrix 2)).1 0 true i)
              (alphaOf 2 true)) *
          Matrix.transpose (eighDemo 2 (T22.toMatrix 2)).2)
        (correctedEigs (eighDemo 2 (T22.toMatrix 2)).1 0 true)
        (eighDemo 2 (T22.toMatrix 2)).2, T22) :=
  ⟨⟨by decide, rfl, by decide, by decide⟩,
    c1_eigen_reconstruction rpowDemo eighDemo T22 2 2 0 true true (by decide) rfl
      (by decide) (by decide)⟩

/-- C4 counterexample.  The claim asserts that every root `<= 0` raises
`InvalidRootError` before any computation for both selectors, but the
`NEWTON` selector performs no root validation: with `root = -1` the
dispatcher returns a result successfully. -/
theorem c4_counterexample :
    exceptIsOk (matrix_inverse_root rpowDemo sqrtDemo eighDemo T22 (-1) 0 .NEWTON 4 1000) =
      true := by decide

/-- C4 (amended).  For every root `<= 0`, the `EIGEN` selector (and the eigen
extractor itself, for every flag combination) raises `InvalidRootError`
before any computation — the result does not depend on the oracles or the
input matrix.  The `NEWTON` selector performs no such check: `root = 0`
raises a division-by-zero error at the `alpha` computation and `root < 0`
proceeds without raising. -/
theorem c4_invalid_root_eigen (rpow : ℚ → ℚ → ℚ) (sqrt : ℚ → ℚ) (eigh : EighOracle)
    (A : PyTensor) (root : ℤ) (epsilon tol : ℚ) (maxIter : ℕ) (hroot : root ≤ 0) :
    matrix_inverse_root rpow sqrt eigh A root epsilon .EIGEN maxIter tol =
      .error .invalidRoot ∧
    ∀ inv psd, matrix_root_eigen rpow eigh A root epsilon inv psd =
      .error .invalidRoot := by
  have h : ∀ inv psd, matrix_root_eigen rpow eigh A root epsilon inv psd =
      .error .invalidRoot := by
    intro inv psd
    unfold matrix_root_eigen
    rw [if_pos hroot]
  refine ⟨?_, h⟩
  show (matrix_root_eigen rpow eigh A root epsilon true true).map _ = _
  rw [h true true]
  rfl

/-- Witness for C4 (amended) at `root = 0`. -/
theorem c4_invalid_root_eigen_witness :
    (0 : ℤ) ≤ 0 ∧
    (matrix_inverse_root rpowDemo sqrtDemo eighDemo T22 0 0 .EIGEN 4 1 =
        .error .invalidRoot ∧
      ∀ inv psd, matrix_root_eigen rpowDemo eighDemo T22 0 0 inv psd =
        .error .invalidRoot) :=
  ⟨by decide, c4_invalid_root_eigen rpowDemo sqrtDemo eighDemo T22 0 0 1 4 (by decide)⟩

/-- C5 counterexample.  The claim asserts that a 1-by-1 (one-element) matrix
input goes through the degenerate path, but a shape-`[1, 1]` tensor is
two-dimensional and the source routes it through the eigendecomposition
path. -/
theorem c5_counterexample :
    isDegenerateOut (matrix_root_eigen rpowDemo eighDemo T11 2 0 true true) = false := by
  decide

/-- C5 (amended).  The degenerate path applies exactly to 0-dimensional or
one-dimensional single-element inputs (shape `[]` or `[1]`), not to every
one-element input: a 2-dimensional 1-by-1 matrix goes through the
eigendecomposition.  For a shape-`[1]` input with positive value `v` and
root `2` the extractor returns `v ** (-1/2)` directly via the degenerate
path, with eigenvectors reported trivially as `1.0`. -/
theorem c5_degenerate_path (rpow : ℚ → ℚ → ℚ) (eigh : EighOracle) (v epsilon : ℚ)
    (make_psd : Bool) (hv : 0 < v) :
    matrix_root_eigen rpow eigh ⟨[1], [v]⟩ 2 epsilon true make_psd =
      .ok (.degenerate ⟨[1], [rpow v (-(1 / 2))]⟩ ⟨[1], [v]⟩ ⟨[], [1]⟩,
        (⟨[1], [v]⟩ : PyTensor)) ∧
    ∀ (A : PyTensor) (root : ℤ) (eps2 : ℚ) (inv psd : Bool), 1 ≤ root →
      (isDegenerateOut (matrix_root_eigen rpow eigh A root eps2 inv psd) = true ↔
        (A.shape = [] ∨ A.shape = [1])) := by
  constructor
  · rw [matrix_root_eigen_degenerate rpow eigh ⟨[1], [v]⟩ 2 epsilon true make_psd
      (by omega) (Or.inr rfl)]
    have ha : alphaOf 2 true = -(1 / 2 : ℚ) := by norm_num [alphaOf]
    simp [PyTensor.map, ha]
  · intro A root eps2 inv psd hroot
    exact isDegenerateOut_iff rpow eigh A root eps2 inv psd hroot

/-- Witness for C5 (amended) at `v = 4`. -/
theorem c5_degenerate_path_witness :
    (0 : ℚ) < 4 ∧
    (matrix_root_eigen rpowDemo eighDemo ⟨[1], [4]⟩ 2 0 true true =
        .ok (.degenerate ⟨[1], [rpowDemo 4 (-(1 / 2))]⟩ ⟨[1], [4]⟩ ⟨[], [1]⟩,
          (⟨[1], [4]⟩ : PyTensor)) ∧
      ∀ (A : PyTensor) (root : ℤ) (eps2 : ℚ) (inv psd : Bool), 1 ≤ root →
        (isDegenerateOut (matrix_root_eigen rpowDemo eighDemo A root eps2 inv psd) = true ↔
          (A.shape = [] ∨ A.shape = [1]))) :=
  ⟨by decide, c5_degenerate_path rpowDemo eighDemo 4 0 true (by decide)⟩

/-- C8 counterexample.  The claim asserts that every non-2-dimensional input
makes the eigen extractor raise `ShapeError`, but a shape-`[1]` input is not
2-dimensional and returns successfully through the degenerate path. -/
theorem c8_counterexample :
    exceptIsOk (matrix_root_eigen rpowDemo eighDemo T1 2 0 true true) = true := by
  decide

/-- C8 (amended).  For a valid root and every input that is not
2-dimensional or not square — except the degenerate inputs of shape `[]` or
`[1]`, which bypass validation — the eigen extractor fails with a
`ShapeError`-class error before the eigendecomposition (the result is the
same for every eigensolver oracle).  The residual validator fails with a
`ShapeError`-class error whenever its input is not 2-dimensional, not
square, or the shapes of `A` and `X_hat` differ, before any computation. -/
theorem c8_shape_errors :
    (∀ (rpow : ℚ → ℚ → ℚ) (eigh : EighOracle) (A : PyTensor) (root : ℤ)
        (epsilon : ℚ) (inv psd : Bool), 1 ≤ root →
        ¬(A.shape = [] ∨ A.shape = [1]) →
        (A.shape.length ≠ 2 ∨ A.shape.headD 0 ≠ A.shape.getD 1 0) →
        ∃ e, matrix_root_eigen rpow eigh A root epsilon inv psd = .error e ∧
          e.isShapeError = true) ∧
    (∀ (rpow : ℚ → ℚ → ℚ) (sqrt : ℚ → ℚ) (eigh : EighOracle) (dbl : ℚ → ℚ)
        (A Xh : PyTensor) (root : ℤ) (epsilon : ℚ),
        (A.shape.length ≠ 2 ∨ A.shape.headD 0 ≠ A.shape.getD 1 0 ∨ A.shape ≠ Xh.shape) →
        ∃ e, compute_matrix_root_inverse_residuals rpow sqrt eigh dbl A Xh root epsilon =
          .error e ∧ e.isShapeError = true) := by
  constructor
  · intro rpow eigh A root epsilon inv psd hroot hnodeg hbad
    unfold matrix_root_eigen
    rw [if_neg (by omega)]
    rw [if_neg (fun h => hnodeg ((degenerate_cond_iff A.shape).mp h))]
    by_cases h2 : A.shape.length = 2
    · have hsq : A.shape.headD 0 ≠ A.shape.getD 1 0 := by tauto
      rw [if_neg (by simp [h2])]
      rw [if_pos hsq]
      exact ⟨.notSquare, rfl, rfl⟩
    · rw [if_pos h2]
      exact ⟨.notTwoDim, rfl, rfl⟩
  · intro rpow sqrt eigh dbl A Xh root epsilon hbad
    unfold compute_matrix_root_inverse_residuals
    by_cases h2 : A.shape.length = 2
    · rw [if_neg (by simp [h2])]
      by_cases hsq : A.shape.headD 0 = A.shape.getD 1 0
      · have hmm : A.shape ≠ Xh.shape := by tauto
        rw [if_neg (fun hne => hne hsq)]
        rw [if_pos hmm]
        exact ⟨.shapeMismatch, rfl, rfl⟩
      · rw [if_pos hsq]
        exact ⟨.notSquare, rfl, rfl⟩
    · rw [if_pos h2]
      exact ⟨.notTwoDim, rfl, rfl⟩

/-- Witness for C8 (amended) at the non-square 2-by-3 input. -/
theorem c8_shape_errors_witness :
    ((1 : ℤ) ≤ 2 ∧ ¬(T23.shape = [] ∨ T23.shape = [1]) ∧
      (T23.shape.length ≠ 2 ∨ T23.shape.headD 0 ≠ T23.shape.getD 1 0) ∧
      ∃ e, matrix_root_eigen rpowDemo eighDemo T23 2 0 true true = .error e ∧
        e.isShapeError = true) ∧
    (∃ e, compute_matrix_root_inverse_residuals rpowDemo sqrtDemo eighDemo dblDemo
        T23 T23 2 0 = .error e ∧ e.isShapeError = true) :=
  ⟨⟨by decide, by decide, by decide,
      c8_shape_errors.1 rpowDemo eighDemo T23 2 0 true true (by decide) (by decide)
        (by decide)⟩,
    c8_shape_errors.2 rpowDemo sqrtDemo eighDemo dblDemo T23 T23 2 0 (by decide)⟩

/-- C10 counterexample.  The claim asserts that for every one-element input
the result never varies with `epsilon`, but the one-element shape-`[1, 1]`
input goes through the eigendecomposition path, where `epsilon` shifts the
returned eigenvalues: with `epsilon = 0` the returned eigenvalue is `4`,
with `epsilon = 3` it is `7`. -/
theorem c10_counterexample :
    outEig0 (matrix_root_eigen rpowDemo eighDemo T11 2 0 true true) = 4 ∧
    outEig0 (matrix_root_eigen rpowDemo eighDemo T11 2 3 true true) = 7 := by
  constructor
  · rw [matrix_root_eigen_square rpowDemo eighDemo T11 1 2 0 true true (by decide) rfl]
    simp [outEig0, correctedEigs, vecMin, listMin, eighDemo, T11, PyTensor.toMatrix]
  · rw [matrix_root_eigen_square rpowDemo eighDemo T11 1 2 3 true true (by decide) rfl]
    simp [outEig0, correctedEigs, vecMin, listMin, eighDemo, T11, PyTensor.toMatrix]
    norm_num

/-- C10 (amended).  For every input of shape `[]` or `[1]` (the inputs that
actually take the degenerate path) and valid root, the result depends only
on `A` and the exponent: it is `A ** alpha` elementwise, and varying
`epsilon` or the PSD flag never changes it. -/
theorem c10_degenerate_independence (rpow : ℚ → ℚ → ℚ) (eigh : EighOracle)
    (A : PyTensor) (root : ℤ) (inv : Bool) (eps1 eps2 : ℚ) (psd1 psd2 : Bool)
    (hroot : 1 ≤ root) (hdeg : A.shape = [] ∨ A.shape = [1]) :
    matrix_root_eigen rpow eigh A root eps1 inv psd1 =
      matrix_root_eigen rpow eigh A root eps2 inv psd2 ∧
    matrix_root_eigen rpow eigh A root eps1 inv psd1 =
      .ok (.degenerate (A.map fun v => rpow v (alphaOf root inv)) A ⟨[], [1]⟩, A) := by
  rw [matrix_root_eigen_degenerate rpow eigh A root eps1 inv psd1 hroot hdeg,
    matrix_root_eigen_degenerate rpow eigh A root eps2 inv psd2 hroot hdeg]
  exact ⟨rfl, rfl⟩

/-- Witness for C10 (amended) at the shape-`[1]` input. -/
theorem c10_degenerate_independence_witness :
    ((1 : ℤ) ≤ 2 ∧ (T1.shape = [] ∨ T1.shape = [1])) ∧
    (matrix_root_eigen rpowDemo eighDemo T1 2 0 true true =
        matrix_root_eigen rpowDemo eighDemo T1 2 5 true false ∧
      matrix_root_eigen rpowDemo eighDemo T1 2 0 true true =
        .ok (.degenerate (T1.map fun v => rpowDemo v (alphaOf 2 true)) T1 ⟨[], [1]⟩, T1)) :=
  ⟨⟨by decide, by decide⟩,
    c10_degenerate_independence rpowDemo eighDemo T1 2 true 0 5 true false (by decide)
      (by decide)⟩

/-- C2.  For every square matrix `A`, root `p >= 1`, epsilon, iteration cap
and tolerance, the coupled Newton iterator sets `alpha = -1/p`, computes
`z = (p + 1) / (2 * |A|_F)` on the regularized `A`, initializes
`X = z^(1/p) * I`, `M = z * A`, `error = |M - I|_inf`, and on each iteration
computes `Mp = (1 - alpha) * I + alpha * M`, then `X = X * Mp`, then
`M = Mp^p * M` with the integer matrix power, then `error = |M - I|_inf` —
i.e. the code equals the spec-side transcription `specNewtonResult`. -/
theorem c2_newton_recurrence (sqrt : ℚ → ℚ) (rpow : ℚ → ℚ → ℚ) {n : ℕ}
    (A : Matrix (Fin n) (Fin n) ℚ) (p : ℕ) (epsilon tol : ℚ) (maxIter : ℕ)
    (hp : 1 ≤ p) :
    matrix_inverse_root_newton sqrt rpow A (p : ℤ) epsilon maxIter tol =
      .ok (specNewtonResult sqrt rpow A p epsilon maxIter tol) := by
  unfold matrix_inverse_root_newton specNewtonResult
  have hpz : ((p : ℤ)) ≠ 0 := Int.natCast_ne_zero.mpr (by omega)
  rw [if_neg hpz]
  simp only [Int.cast_natCast, neg_div, newtonInit_eq_spec, newtonStep_eq_spec]

/-- Witness for C2 at the concrete input `1` (the 1-by-1 identity), root `1`,
`epsilon = 0`, two iterations allowed, tolerance `1`. -/
theorem c2_newton_recurrence_witness :
    1 ≤ 1 ∧
    matrix_inverse_root_newton sqrtDemo rpowDemo (1 : Matrix (Fin 1) (Fin 1) ℚ)
        ((1 : ℕ) : ℤ) 0 2 1 =
      .ok (specNewtonResult sqrtDemo rpowDemo (1 : Matrix (Fin 1) (Fin 1) ℚ) 1 0 2 1) :=
  ⟨by decide,
    c2_newton_recurrence sqrtDemo rpowDemo (1 : Matrix (Fin 1) (Fin 1) ℚ) 1 0 1 2
      (by decide)⟩

/-- C3.  For every square input and root `p >= 1` (the iterator's contract
domain), the Newton iterator runs at most `max_iterations` loop iterations,
returns without raising, and flags `CONVERGED` exactly when some state
reachable within `max_iterations` iterations has error within tolerance —
equivalently, when the loop exits with the error within tolerance —
and `REACHED_MAX_ITERS` otherwise.  In both cases the dispatcher's `NEWTON`
branch returns the current `X`, adding only the non-convergence warning
diagnostic when the flag is `REACHED_MAX_ITERS`. -/
theorem c3_newton_termination (sqrt : ℚ → ℚ) (rpow : ℚ → ℚ → ℚ) (eigh : EighOracle)
    (A : PyTensor) (n : ℕ) (root : ℤ) (epsilon tol : ℚ) (maxIter : ℕ)
    (hsh : A.shape = [n, n]) (hroot : 1 ≤ root) :
    ∃ r : NewtonResult n,
      matrix_inverse_root_newton sqrt rpow (A.toMatrix n) root epsilon maxIter tol =
        .ok r ∧
      r.iteration ≤ maxIter ∧
      (r.flag = NewtonConvergenceFlag.CONVERGED ↔
        ∃ k, k ≤ maxIter ∧
          ((newtonStep (-1 / (root : ℚ)) root)^[k]
              (newtonInit sqrt rpow (A.toMatrix n) root epsilon)).error ≤ tol) ∧
      matrix_inverse_root rpow sqrt eigh A root epsilon .NEWTON maxIter tol =
        .ok (matToTensor n r.X,
          if r.flag = NewtonConvergenceFlag.REACHED_MAX_ITERS then [newtonWarningMsg]
          else []) := by
  obtain ⟨sh, d⟩ := A
  have hsh2 : sh = [n, n] := hsh
  subst hsh2
  have hne : root ≠ 0 := by omega
  have hstep : ∀ s : NewtonState n,
      (newtonStep (-1 / (root : ℚ)) root s).iteration = s.iteration + 1 := fun s => rfl
  have hok := matrix_inverse_root_newton_ok sqrt rpow
    ((⟨[n, n], d⟩ : PyTensor).toMatrix n) root epsilon maxIter tol hne
  refine ⟨_, hok, ?_, ?_, ?_⟩
  · have hle := loopNewton_iteration_le (newtonStep (-1 / (root : ℚ)) root) hstep tol
      maxIter maxIter (newtonInit sqrt rpow ((⟨[n, n], d⟩ : PyTensor).toMatrix n) root epsilon)
    simpa [newtonInit] using hle
  · have herr := loopNewton_error_iff (newtonStep (-1 / (root : ℚ)) root) hstep tol
      maxIter maxIter (newtonInit sqrt rpow ((⟨[n, n], d⟩ : PyTensor).toMatrix n) root epsilon)
      (by simp [newtonInit])
    refine Iff.trans ?_ herr
    show ((if _ ≤ tol then NewtonConvergenceFlag.CONVERGED else .REACHED_MAX_ITERS) =
      NewtonConvergenceFlag.CONVERGED) ↔ _
    split_ifs with hb
    · simp [hb]
    · simp [hb]
  · show (matrix_inverse_root_newton sqrt rpow
        ((⟨[n, n], d⟩ : PyTensor).toMatrix n) root epsilon maxIter tol).map
        (fun r => (matToTensor n r.X,
          if r.flag = NewtonConvergenceFlag.REACHED_MAX_ITERS then [newtonWarningMsg]
          else [])) = _
    rw [hok]
    rfl

/-- Witness for C3 at the concrete input `[[2, 0], [0, 2]]`, root `2`,
`epsilon = 0`, three iterations allowed, tolerance `1`. -/
theorem c3_newton_termination_witness :
    (T22.shape = [2, 2] ∧ (1 : ℤ) ≤ 2) ∧
    (∃ r : NewtonResult 2,
      matrix_inverse_root_newton sqrtDemo rpowDemo (T22.toMatrix 2) 2 0 3 1 = .ok r ∧
      r.iteration ≤ 3 ∧
      (r.flag = NewtonConvergenceFlag.CONVERGED ↔
        ∃ k, k ≤ 3 ∧
          ((newtonStep (-1 / ((2 : ℤ) : ℚ)) 2)^[k]
              (newtonInit sqrtDemo rpowDemo (T22.toMatrix 2) 2 0)).error ≤ 1) ∧
      matrix_inverse_root rpowDemo sqrtDemo eighDemo T22 2 0 .NEWTON 3 1 =
        .ok (matToTensor 2 r.X,
          if r.flag = NewtonConvergenceFlag.REACHED_MAX_ITERS then [newtonWarningMsg]
          else [])) :=
  ⟨⟨rfl, by decide⟩,
    c3_newton_termination sqrtDemo rpowDemo eighDemo T22 2 2 0 1 3 rfl (by decide)⟩

/-- C7.  The Newton path mutates the caller-visible input matrix in place:
after a (non-raising) call the caller's `A` buffer holds `A + epsilon * I`,
regularized before iterating, with no copy made.  The eigen path has no side
effect on its input: whenever it returns, the caller's `A` buffer still holds
the original `A` (epsilon is added to the derived eigenvalue vector, never to
`A`). -/
theorem c7_frame_effects :
    (∀ (sqrt : ℚ → ℚ) (rpow : ℚ → ℚ → ℚ) (n : ℕ) (A : Matrix (Fin n) (Fin n) ℚ)
        (root : ℤ) (epsilon : ℚ) (maxIter : ℕ) (tol : ℚ), root ≠ 0 →
        (matrix_inverse_root_newton sqrt rpow A root epsilon maxIter tol).map
            (fun r => r.Afinal) =
          .ok (A + epsilon • (1 : Matrix (Fin n) (Fin n) ℚ))) ∧
    (∀ (rpow : ℚ → ℚ → ℚ) (eigh : EighOracle) (A : PyTensor) (root : ℤ)
        (epsilon : ℚ) (inv psd : Bool),
        (matrix_root_eigen rpow eigh A root epsilon inv psd).map Prod.snd =
          (matrix_root_eigen rpow eigh A root epsilon inv psd).map (fun _ => A)) := by
  constructor
  · intro sqrt rpow n A root epsilon maxIter tol hroot
    unfold matrix_inverse_root_newton
    rw [if_neg hroot]
    rfl
  · intro rpow eigh A root epsilon inv psd
    unfold matrix_root_eigen
    split_ifs <;> rfl

/-- Witness for C7: the Newton part at a concrete call with `epsilon = 5`,
the eigen part at a concrete degenerate call. -/
theorem c7_frame_effects_witness :
    (2 : ℤ) ≠ 0 ∧
    (matrix_inverse_root_newton sqrtDemo rpowDemo (T22.toMatrix 2) 2 5 3 1).map
        (fun r => r.Afinal) =
      .ok (T22.toMatrix 2 + (5 : ℚ) • (1 : Matrix (Fin 2) (Fin 2) ℚ)) ∧
    (matrix_root_eigen rpowDemo eighDemo T1 2 0 true true).map Prod.snd =
      (matrix_root_eigen rpowDemo eighDemo T1 2 0 true true).map (fun _ => T1) :=
  ⟨by decide,
    c7_frame_effects.1 sqrtDemo rpowDemo 2 (T22.toMatrix 2) 2 5 3 1 (by decide),
    c7_frame_effects.2 rpowDemo eighDemo T1 2 0 true true⟩

/-- C9.  For every selector value other than `EIGEN` and `NEWTON`, the
dispatcher fails with `UnsupportedMethodError` whose message names the
offending selector, without invoking either extractor: the result is the
same for every oracle, matrix, root and tuning parameter. -/
theorem c9_unsupported_method (rpow : ℚ → ℚ → ℚ) (sqrt : ℚ → ℚ) (eigh : EighOracle)
    (A : PyTensor) (root : ℤ) (epsilon tol : ℚ) (maxIter : ℕ) (s : String) :
    matrix_inverse_root rpow sqrt eigh A root epsilon (.other s) maxIter tol =
      .error (.unsupportedMethod
        ("Root inverse method is not implemented! Specified root inverse method is "
          ++ s ++ ".")) := rfl

/-- C6.  For every square `A` and candidate `X_hat` of matching shape, root
`p >= 1` and epsilon, the residual validator recomputes the reference root
inverse on the double-cast `A` via the (default) eigen method with its
default flags, and returns
`relative_error = |X_ref - X_hat|_inf / |X_ref|_inf` and
`relative_residual = |X_hat^(-p) - A|_inf / |A|_inf`, the residual computed
on the double-cast `X_hat` and `A`. -/
theorem c6_residual_formulas (rpow : ℚ → ℚ → ℚ) (sqrt : ℚ → ℚ) (eigh : EighOracle)
    (dbl : ℚ → ℚ) (A X_hat : PyTensor) (n : ℕ) (root : ℤ) (epsilon : ℚ)
    (hshA : A.shape = [n, n]) (hshX : X_hat.shape = [n, n]) (hroot : 1 ≤ root) :
    compute_matrix_root_inverse_residuals rpow sqrt eigh dbl A X_hat root epsilon =
      .ok
        (let Xref := (eigh n ((A.map dbl).toMatrix n)).2 *
            Matrix.diagonal (fun i =>
              rpow (correctedEigs (eigh n ((A.map dbl).toMatrix n)).1 epsilon true i)
                (alphaOf root true)) *
            Matrix.transpose (eigh n ((A.map dbl).toMatrix n)).2
         (linfDist Xref (X_hat.toMatrix n) / linfNorm Xref,
          linfDist (matPowZ ((X_hat.map dbl).toMatrix n) (-root)) ((A.map dbl).toMatrix n) /
            linfNorm ((A.map dbl).toMatrix n))) := by
  obtain ⟨sh, d⟩ := A
  have h2 : sh = [n, n] := hshA
  subst h2
  unfold compute_matrix_root_inverse_residuals
  rw [if_neg (by simp)]
  rw [if_neg (by simp)]
  rw [if_neg (fun hne => hne hshX.symm)]
  have hok := matrix_root_eigen_square rpow eigh ((⟨[n, n], d⟩ : PyTensor).map dbl) n root
    epsilon true true hroot rfl
  have hdisp : matrix_inverse_root rpow sqrt eigh ((⟨[n, n], d⟩ : PyTensor).map dbl) root
      epsilon .EIGEN 1000 (1 / 1000000) =
      .ok (matToTensor n
        ((eigh n (((⟨[n, n], d⟩ : PyTensor).map dbl).toMatrix n)).2 *
          Matrix.diagonal (fun i =>
            rpow (correctedEigs (eigh n (((⟨[n, n], d⟩ : PyTensor).map dbl).toMatrix n)).1
                epsilon true i)
              (alphaOf root true)) *
          Matrix.transpose (eigh n (((⟨[n, n], d⟩ : PyTensor).map dbl).toMatrix n)).2),
        []) := by
    show (matrix_root_eigen rpow eigh ((⟨[n, n], d⟩ : PyTensor).map dbl) root epsilon
      true true).map (fun r => (eigenOutX r.1, [])) = _
    rw [hok]
    rfl
  simp only [hdisp, toMatrix_matToTensor, List.headD_cons]

/-- Witness for C6 at the concrete inputs `A = [[4]]`, `X_hat = [[2]]`,
root `1`, `epsilon = 0`. -/
theorem c6_residual_formulas_witness :
    (T11.shape = [1, 1] ∧ X11.shape = [1, 1] ∧ (1 : ℤ) ≤ 1) ∧
    compute_matrix_root_inverse_residuals rpowDemo sqrtDemo eighDemo dblDemo T11 X11 1 0 =
      .ok
        (let Xref := (eighDemo 1 ((T11.map dblDemo).toMatrix 1)).2 *
            Matrix.diagonal (fun i =>
              rpowDemo (correctedEigs (eighDemo 1 ((T11.map dblDemo).toMatrix 1)).1 0 true i)
                (alphaOf 1 true)) *
            Matrix.transpose (eighDemo 1 ((T11.map dblDemo).toMatrix 1)).2
         (linfDist Xref (X11.toMatrix 1) / linfNorm Xref,
          linfDist (matPowZ ((X11.map dblDemo).toMatrix 1) (-1)) ((T11.map dblDemo).toMatrix 1) /
            linfNorm ((T11.map dblDemo).toMatrix 1))) :=
  ⟨⟨rfl, rfl, by decide⟩,
    c6_residual_formulas rpowDemo sqrtDemo eighDemo dblDemo T11 X11 1 1 0 rfl rfl
      (by decide)⟩
